import Mathlib

/-!
Verification of the ConLangIPATool core logic: the language data model
(`src/core/language.py`), the configuration store (`src/core/config.py`),
the consonant-cluster generator and the three line-oriented mini-parsers
of the creation wizard (`src/ui/language_creation.py`).

Python strings are embedded as `List Char` (a Python `str` is a sequence
of code points; Python string comparison is lexicographic by code point,
matching the `LinearOrder (List Char)` lexicographic order).
-/

/-- Character view of a Lean string literal, used to write concrete inputs. -/
def chars (s : String) : List Char := s.data

/-- The whitespace characters removed by Python's `str.strip()` (ASCII range). -/
def pyIsSpace (c : Char) : Bool :=
  c = ' ' || c = '\t' || c = '\n' || c = '\x0d' || c = '\x0b' || c = '\x0c'

/-- Python `s.strip()`: remove leading and trailing whitespace. -/
def strip (s : List Char) : List Char :=
  ((s.dropWhile pyIsSpace).reverse.dropWhile pyIsSpace).reverse

/-- Python `s.split(sep, 1)` restricted to the case where `sep` occurs:
`splitOnce sep s = some (before, after)` splits at the first occurrence of
`sep`; `none` means `sep` does not occur in `s` (so Python `sep in s` is
`(splitOnce sep s).isSome`). -/
def splitOnce (sep : List Char) : List Char → Option (List Char × List Char)
  | [] => if sep.isPrefixOf ([] : List Char) then some ([], []) else none
  | c :: rest =>
    if sep.isPrefixOf (c :: rest) then some ([], (c :: rest).drop sep.length)
    else (splitOnce sep rest).map (fun pr => (c :: pr.1, pr.2))

/-- Python `s.find(c)` for a single character, as an `Option` (the source only
reads it under an `in` guard, so the `-1` case never materialises). -/
def firstIdx (c : Char) (s : List Char) : Option Nat :=
  s.findIdx? (fun d => d = c)

/-- Python `s.rfind(c)` for a single character, as an `Option`. -/
def lastIdx (c : Char) (s : List Char) : Option Nat :=
  (s.reverse.findIdx? (fun d => d = c)).map (fun i => s.length - 1 - i)

/-! ## Data model (`src/core/language.py`) -/

inductive PartOfSpeech
  | NOUN | VERB | ADJECTIVE | ADVERB | PRONOUN | PREPOSITION | CONJUNCTION
  | INTERJECTION | ARTICLE | NUMERAL | PARTICLE | AUXILIARY | DETERMINER
  | POSTPOSITION
deriving DecidableEq

inductive WordOrder
  | SOV | SVO | VSO | VOS | OVS | OSV
  | S_V_DO_IO | S_V_IO_DO | S_IO_DO_V | S_DO_IO_V
  | V_S_IO_DO | V_S_DO_IO | S_IO_V_DO | IO_S_V_DO
deriving DecidableEq

inductive StressPattern
  | NO_FIXED | INITIAL | SECOND | ANTEPENULTIMATE | PENULTIMATE | ULTIMATE
  | NO_STRESS | CUSTOM_FOOT
deriving DecidableEq

inductive FootDirection
  | LEFT_TO_RIGHT | RIGHT_TO_LEFT
deriving DecidableEq

inductive MainStressPosition
  | LEFT_MOST | RIGHT_MOST
deriving DecidableEq

/-- `CustomStressPattern` dataclass; the numeric fields are Python `int`s. -/
structure CustomStressPattern where
  foot_size : Int := 2
  foot_direction : FootDirection := FootDirection.LEFT_TO_RIGHT
  stressed_syllable_in_foot : Int := 1
  main_stress_position : MainStressPosition := MainStressPosition.RIGHT_MOST
deriving DecidableEq

/-- `CustomStressPattern.validate`: `Except.error msg` models `raise
ValueError(msg)`, `Except.ok ()` models a silent return (the method never
mutates the pattern). -/
def CustomStressPattern.validate (p : CustomStressPattern) : Except (List Char) Unit :=
  if ¬ (p.foot_size = 2 ∨ p.foot_size = 3) then
    Except.error (chars "Foot size must be either 2 or 3 syllables.")
  else if p.stressed_syllable_in_foot < 1 ∨ p.foot_size < p.stressed_syllable_in_foot then
    Except.error (chars "Stressed syllable must fall within the foot size.")
  else
    Except.ok ()

structure PhonotacticProfile where
  consonants : List (List Char) := []
  vowels : List (List Char) := []
  onset_clusters : List (List Char) := []
  medial_clusters : List (List Char) := []
  coda_clusters : List (List Char) := []
  illegal_sequences : List (List Char) := []
deriving DecidableEq

structure StressSettings where
  pattern : StressPattern := StressPattern.NO_FIXED
  custom_pattern : Option CustomStressPattern := none
deriving DecidableEq

structure LexiconEntry where
  conlang : List Char
  part_of_speech : List Char
  english : List Char := []
  ipa : List Char := []
deriving DecidableEq

structure AffixDefinition where
  label : List Char
  description : List Char := []
deriving DecidableEq

structure DerivedWordDefinition where
  base : List Char
  derived_form : List Char
  gloss : List Char := []
deriving DecidableEq

structure GrammarProfile where
  word_order : WordOrder := WordOrder.SVO
  optional_parts_of_speech : List PartOfSpeech := []
  notes : List Char := []
deriving DecidableEq

structure LanguageProfile where
  identifier : List Char
  name : Option (List Char)
  generated_name : Option (List Char)
  phonotactics : PhonotacticProfile
  stress : StressSettings
  lexicon : List LexiconEntry := []
  affixes : List AffixDefinition := []
  derived_words : List DerivedWordDefinition := []
  grammar : GrammarProfile := {}
deriving DecidableEq

/-- Python truthiness of an `Optional[str]`: `None` and `""` are falsy. -/
def optStrTruthy : Option (List Char) → Bool
  | none => false
  | some s => !s.isEmpty

/-- `LanguageProfile.display_name`: `self.name or self.generated_name or
"Unnamed Language"` (Python `or` returns its first truthy operand). -/
def LanguageProfile.display_name (p : LanguageProfile) : List Char :=
  if optStrTruthy p.name then p.name.getD []
  else if optStrTruthy p.generated_name then p.generated_name.getD []
  else chars "Unnamed Language"

/-- A profile whose user-given name is present but empty (`name=""`) while an
auto-generated name exists; Python `or` skips the empty string. -/
def emptyNameProfile : LanguageProfile :=
  ⟨chars "id-1", some [], some (chars "Rivia"), {}, {}, [], [], [], {}⟩

/-! ## Cluster generator (`PhonologyPage._generate_clusters`) -/

/-- One `clusters.add(x)` step on the set, modelled as a duplicate-free list
in insertion order. -/
def insertUnique (acc : List (List Char)) (x : List Char) : List (List Char) :=
  if x ∈ acc then acc else acc ++ [x]

/-- The doubly-nested loop of `_generate_clusters`, flattened over the ordered
pair sequence: pairs with `first == second` are skipped (`continue`); after
each `add`, `len(clusters) >= limit` breaks the inner loop and the identical
check then breaks the outer loop, i.e. the traversal halts entirely. -/
def clusterLoop : List (List Char) → List (List Char × List Char) → List (List Char)
  | acc, [] => acc
  | acc, p :: rest =>
    if p.1 = p.2 then clusterLoop acc rest
    else
      let acc' := insertUnique acc (p.1 ++ p.2)
      if 200 ≤ acc'.length then acc' else clusterLoop acc' rest

/-- The iteration order `for first in consonants: for second in consonants`. -/
def consonantPairs (cs : List (List Char)) : List (List Char × List Char) :=
  cs.flatMap (fun f => cs.map (fun s => (f, s)))

/-- `PhonologyPage._generate_clusters`: Python `sorted` on the resulting set
(ascending lexicographic order on strings). -/
def generate_clusters (cs : List (List Char)) : List (List Char) :=
  List.insertionSort (· ≤ ·) (clusterLoop [] (consonantPairs cs))

/-- The concatenations of the distinct-component pairs, in traversal order
(specification helper: what the loop would add with no cap). -/
def pairConcats (ps : List (List Char × List Char)) : List (List Char) :=
  (ps.filter (fun p => p.1 ≠ p.2)).map (fun p => p.1 ++ p.2)

/-- First-occurrence deduplication starting from `acc` (specification helper
relating `clusterLoop` to `pairConcats`). -/
def dedupAcc (acc : List (List Char)) : List (List Char) → List (List Char)
  | [] => acc
  | x :: xs => dedupAcc (insertUnique acc x) xs

/-! ## Lexicon line parser (`LexiconPage.collect_data`) -/

/-- Parse one already-stripped, non-skipped lexicon line. -/
def parseLexLine (line : List Char) : LexiconEntry :=
  match splitOnce ['='] line with
  | some (l, r) =>
    let left := strip l
    let right := strip r
    let ep :=
      match splitOnce [':'] left with
      | some (e, p) => (strip e, strip p)
      | none => (left, ([] : List Char))
    let ci :=
      match firstIdx ('(') right, lastIdx (')') right with
      | some start, some stop =>
        if start < stop then
          (strip (right.take start),
           strip ((right.drop (start + 1)).take (stop - start - 1)))
        else (right, ([] : List Char))
      | _, _ => (right, ([] : List Char))
    { conlang := ci.1, part_of_speech := ep.2, english := ep.1, ipa := ci.2 }
  | none =>
    match splitOnce [':'] line with
    | some (c, p) =>
      { conlang := strip c, part_of_speech := strip p, english := [], ipa := [] }
    | none => { conlang := line, part_of_speech := [], english := [], ipa := [] }

/-- The per-line loop of `LexiconPage.collect_data`: strip each raw line,
skip empty lines and lines starting with `#`, parse the rest in order. -/
def collectLexicon : List (List Char) → List LexiconEntry
  | [] => []
  | raw :: rest =>
    let line := strip raw
    if line = [] ∨ line.head? = some '#' then collectLexicon rest
    else parseLexLine line :: collectLexicon rest

/-! ## Affix line parser (`MorphologyPage.collect_data`, first loop) -/

/-- Parse one already-stripped, non-skipped affix line. -/
def parseAffixLine (line : List Char) : AffixDefinition :=
  match splitOnce ['='] line with
  | some (a, b) => { label := strip a, description := strip b }
  | none =>
    match splitOnce [':'] line with
    | some (a, b) => { label := strip a, description := strip b }
    | none => { label := line, description := [] }

/-- The affix loop of `MorphologyPage.collect_data`. -/
def collectAffixes : List (List Char) → List AffixDefinition
  | [] => []
  | raw :: rest =>
    let line := strip raw
    if line = [] ∨ line.head? = some '#' then collectAffixes rest
    else parseAffixLine line :: collectAffixes rest

/-! ## Derived-word line parser (`MorphologyPage.collect_data`, second loop) -/

/-- Parse one already-stripped, non-skipped derived-word line. `base or
derived_form` is Python `or`: the empty string is falsy. -/
def parseDerivedLine (line : List Char) : DerivedWordDefinition :=
  let bd :=
    match splitOnce (chars "->") line with
    | some (b, rem) => (strip b, strip rem)
    | none => (([] : List Char), line)
  let dg :=
    match splitOnce ['='] bd.2 with
    | some (d, g) => (strip d, strip g)
    | none => (bd.2, ([] : List Char))
  { base := if bd.1 = [] then dg.1 else bd.1, derived_form := dg.1, gloss := dg.2 }

/-- The derived-word loop of `MorphologyPage.collect_data`. -/
def collectDerived : List (List Char) → List DerivedWordDefinition
  | [] => []
  | raw :: rest =>
    let line := strip raw
    if line = [] ∨ line.head? = some '#' then collectDerived rest
    else parseDerivedLine line :: collectDerived rest

/-! ## Configuration store (`src/core/config.py`)

The JSON values that `json.dump`/`json.load` exchange are modelled as a
tree `JValue`; `json.dump` followed by `json.load` is the identity on this
fragment (strings, booleans, integers, `null`, arrays, objects), so the
on-disk file is modelled as the parsed value it deserialises to. -/

inductive JValue
  | str (s : List Char)
  | bool (b : Bool)
  | num (n : Int)
  | null
  | arr (xs : List JValue)
  | obj (entries : List (List Char × JValue))

/-- Python `dict` lookup (`settings.get` / `settings[...]`), first match on
the key, over an insertion-ordered association list. -/
def dictGet : List (List Char × JValue) → List Char → Option JValue
  | [], _ => none
  | (k', v) :: rest, k => if k' = k then some v else dictGet rest k

/-- Python `d[k] = v`: replace the value of an existing key in place,
otherwise append the new key at the end. -/
def setKey : List (List Char × JValue) → List Char → JValue → List (List Char × JValue)
  | [], k, v => [(k, v)]
  | (k', v') :: rest, k, v =>
    if k' = k then (k, v) :: rest else (k', v') :: setKey rest k v

/-- Python `base.update(upd)` for dictionaries: assign every pair of `upd`
into `base` in order. -/
def updateDict (base upd : List (List Char × JValue)) : List (List Char × JValue) :=
  upd.foldl (fun acc kv => setKey acc kv.1 kv.2) base

/-- The default settings dictionary built in `Config.__init__`. -/
def defaultSettings : List (List Char × JValue) :=
  [(chars "theme", JValue.str (chars "default")),
   (chars "recent_files", JValue.arr []),
   (chars "auto_save", JValue.bool true),
   (chars "language", JValue.str (chars "en"))]

/-- The state of the config file as `Config.load` sees it: `none` when
`self.config_file.exists()` is false, `some none` when the file exists but
`json.load` raises (malformed JSON), `some (some v)` when it parses to `v`. -/
def ConfigFile := Option (Option JValue)

/-- `Config.save`: writes `json.dump(self.settings, f)`, producing a file
that parses back to the object with the same entries. -/
def Config.save (settings : List (List Char × JValue)) : ConfigFile :=
  some (some (JValue.obj settings))

/-- `Config.load`: a missing file is skipped; a `json.load` failure is caught
by the `except` clause and skipped; a parsed object updates the settings
dict; a parsed non-object makes `dict.update` raise, which the same
`except` clause catches, leaving the settings unchanged. The function is
total: every branch returns (no exception escapes). -/
def Config.load (file : ConfigFile) (settings : List (List Char × JValue)) :
    List (List Char × JValue) :=
  match file with
  | none => settings
  | some none => settings
  | some (some (JValue.obj entries)) => updateDict settings entries
  | some (some _) => settings

/-! ## Theorems -/

/-- Claim C5: `CustomStressPattern.validate` raises a validation error iff
`foot_size` is not 2 and not 3, or `stressed_syllable_in_foot` is less than 1
or greater than `foot_size`; in particular it fails for `foot_size = 4` and
succeeds for `foot_size = 2`, `stressed_syllable_in_foot = 2` (the validator
is pure, so a successful run leaves the pattern unchanged). -/
theorem C5_validate_iff (p : CustomStressPattern) :
    ((∃ m, p.validate = Except.error m) ↔
      (¬ (p.foot_size = 2 ∨ p.foot_size = 3) ∨
        p.stressed_syllable_in_foot < 1 ∨ p.foot_size < p.stressed_syllable_in_foot)) ∧
    (∀ q : CustomStressPattern, q.foot_size = 4 → ∃ m, q.validate = Except.error m) ∧
    CustomStressPattern.validate
      ⟨2, FootDirection.LEFT_TO_RIGHT, 2, MainStressPosition.RIGHT_MOST⟩ = Except.ok () := by
  refine ⟨?_, ?_, rfl⟩
  · unfold CustomStressPattern.validate
    by_cases h1 : p.foot_size = 2 ∨ p.foot_size = 3
    · by_cases h2 : p.stressed_syllable_in_foot < 1 ∨ p.foot_size < p.stressed_syllable_in_foot
      · simp [h1, h2]
      · simp [h1, h2]
    · simp [h1]
  · intro q hq
    refine ⟨chars "Foot size must be either 2 or 3 syllables.", ?_⟩
    unfold CustomStressPattern.validate
    rw [hq]
    norm_num

/-- Claim C7: `Config.load` is total (never raises): a missing configuration
file keeps the defaults (`theme` "default", empty `recent_files`, `auto_save`
true, `language` "en"), and an unparseable file is skipped, retaining the
defaults. -/
theorem C7_load_defaults :
    Config.load none defaultSettings = defaultSettings ∧
    Config.load (some none) defaultSettings = defaultSettings ∧
    dictGet defaultSettings (chars "theme") = some (JValue.str (chars "default")) ∧
    dictGet defaultSettings (chars "recent_files") = some (JValue.arr []) ∧
    dictGet defaultSettings (chars "auto_save") = some (JValue.bool true) ∧
    dictGet defaultSettings (chars "language") = some (JValue.str (chars "en")) :=
  ⟨rfl, rfl, rfl, rfl, rfl, rfl⟩

/-- Claim C8 (amended): `display_name` equals the user-given name when one is
present and non-empty, otherwise the generated name when present and
non-empty, otherwise the fixed fallback "Unnamed Language" (Python `or`
treats the empty string as absent). -/
theorem C8_display_name (p : LanguageProfile) :
    (∀ s, p.name = some s → s ≠ [] → p.display_name = s) ∧
    ((p.name = none ∨ p.name = some []) →
      ∀ s, p.generated_name = some s → s ≠ [] → p.display_name = s) ∧
    ((p.name = none ∨ p.name = some []) →
      (p.generated_name = none ∨ p.generated_name = some []) →
      p.display_name = chars "Unnamed Language") := by
  refine ⟨?_, ?_, ?_⟩
  · intro s hs hne
    simp [LanguageProfile.display_name, optStrTruthy, hs, hne]
  · rintro (h | h) s hs hne <;>
      simp [LanguageProfile.display_name, optStrTruthy, h, hs, hne]
  · rintro (h | h) (h2 | h2) <;>
      simp [LanguageProfile.display_name, optStrTruthy, h, h2]

/-- Claim C8, counterexample to the original statement: in `emptyNameProfile`
the user-given name is present (`some ""`), yet `display_name` is not that
name but the generated name "Rivia". -/
theorem C8_display_name_cex :
    emptyNameProfile.name = some [] ∧
    emptyNameProfile.display_name ≠ [] ∧
    emptyNameProfile.display_name = chars "Rivia" := by
  refine ⟨rfl, ?_, rfl⟩
  decide

/-- Claim C9: the affix parser splits a line on the first `=` when present,
else on the first `:` when present, else takes the whole line as the label
with an empty description; and `"-la = diminutive suffix"` parses to label
`-la`, description `diminutive suffix`. -/
theorem C9_affix_lines (line : List Char) :
    (∀ a b, splitOnce ['='] line = some (a, b) →
      parseAffixLine line = ⟨strip a, strip b⟩) ∧
    (splitOnce ['='] line = none →
      ∀ a b, splitOnce [':'] line = some (a, b) →
        parseAffixLine line = ⟨strip a, strip b⟩) ∧
    (splitOnce ['='] line = none → splitOnce [':'] line = none →
      parseAffixLine line = ⟨line, []⟩) ∧
    parseAffixLine (chars "-la = diminutive suffix") =
      ⟨chars "-la", chars "diminutive suffix"⟩ := by
  refine ⟨?_, ?_, ?_, by decide⟩
  · intro a b h
    simp [parseAffixLine, h]
  · intro h a b h2
    simp [parseAffixLine, h, h2]
  · intro h h2
    simp [parseAffixLine, h, h2]

/-- Claim C2 (amended): per non-empty non-`#` line, a `->` line is split once
on the first `->` into base/remainder, otherwise base starts empty and the
remainder is the whole line; a remainder containing `=` is split once on the
first `=` into derived form and gloss; the final base equals the derived form
whenever no `->` was present (it may also equal it with `->` present, e.g.
when the part before the arrow strips to the empty string); and the example
line parses as stated. -/
theorem C2_derived_words (line : List Char) :
    (∀ b rem, splitOnce (chars "->") line = some (b, rem) →
      (∀ d g, splitOnce ['='] (strip rem) = some (d, g) →
        parseDerivedLine line =
          ⟨if strip b = [] then strip d else strip b, strip d, strip g⟩) ∧
      (splitOnce ['='] (strip rem) = none →
        parseDerivedLine line =
          ⟨if strip b = [] then strip rem else strip b, strip rem, []⟩)) ∧
    (splitOnce (chars "->") line = none →
      (∀ d g, splitOnce ['='] line = some (d, g) →
        parseDerivedLine line = ⟨strip d, strip d, strip g⟩) ∧
      (splitOnce ['='] line = none →
        parseDerivedLine line = ⟨line, line, []⟩) ∧
      (parseDerivedLine line).base = (parseDerivedLine line).derived_form) ∧
    parseDerivedLine (chars "vala -> valaran = place of sunlight") =
      ⟨chars "vala", chars "valaran", chars "place of sunlight"⟩ := by
  refine ⟨?_, ?_, by decide⟩
  · intro b rem h
    refine ⟨?_, ?_⟩
    · intro d g h2
      simp [parseDerivedLine, h, h2]
    · intro h2
      simp [parseDerivedLine, h, h2]
  · intro h
    refine ⟨?_, ?_, ?_⟩
    · intro d g h2
      simp [parseDerivedLine, h, h2]
    · intro h2
      simp [parseDerivedLine, h, h2]
    · rcases h2 : splitOnce ['='] line with _ | ⟨d, g⟩ <;>
        simp [parseDerivedLine, h, h2]

/-- Claim C2, counterexample to the original statement: the line `"-> x"`
contains `->`, yet its final base equals its derived form (the empty base
part falls back to the derived form), refuting the claimed "exactly when no
`->` was present". -/
theorem C2_derived_words_cex :
    (splitOnce (chars "->") (chars "-> x")).isSome = true ∧
    (parseDerivedLine (chars "-> x")).base =
      (parseDerivedLine (chars "-> x")).derived_form := by
  decide

/-- Claim C3: for a lexicon line containing `=`, the line is split once on the
first `=`; the left side is split once on the first `:` into english and
part-of-speech (no `:` means the whole left side is english and the POS is
empty); on the right side, when the first `(` precedes the last `)`, the
stripped substring strictly between them is the ipa and the stripped text
before the first `(` is the conlang form, while with no parentheses at all
the whole right side is the conlang form; and the example line parses as
stated. -/
theorem C3_lexicon_eq_line (line l r : List Char)
    (h : splitOnce ['='] line = some (l, r)) :
    (∀ a b, splitOnce [':'] (strip l) = some (a, b) →
      (parseLexLine line).english = strip a ∧
      (parseLexLine line).part_of_speech = strip b) ∧
    (splitOnce [':'] (strip l) = none →
      (parseLexLine line).english = strip l ∧
      (parseLexLine line).part_of_speech = []) ∧
    (∀ i j, firstIdx '(' (strip r) = some i → lastIdx ')' (strip r) = some j →
      i < j →
      (parseLexLine line).conlang = strip ((strip r).take i) ∧
      (parseLexLine line).ipa = strip (((strip r).drop (i + 1)).take (j - i - 1))) ∧
    (firstIdx '(' (strip r) = none → lastIdx ')' (strip r) = none →
      (parseLexLine line).conlang = strip r ∧ (parseLexLine line).ipa = []) ∧
    parseLexLine (chars "sunlight : noun = vala (ˈva.la)") =
      ⟨chars "vala", chars "noun", chars "sunlight", chars "ˈva.la"⟩ := by
  refine ⟨?_, ?_, ?_, ?_, by decide⟩
  · intro a b h2
    simp [parseLexLine, h, h2]
  · intro h2
    simp [parseLexLine, h, h2]
  · intro i j hi hj hij
    simp [parseLexLine, h, hi, hj, hij]
  · intro hi hj
    simp [parseLexLine, h, hi, hj]

/-- Claim C4: the lexicon loop strips every raw line, skips lines that are
empty after stripping or start with `#`, and emits exactly one entry per
remaining line in input order; a remaining line without `=` but with `:` is
split once on the first `:` into conlang form and part-of-speech, so
`"vala : noun"` parses as stated. -/
theorem C4_lexicon_loop (ls : List (List Char)) :
    collectLexicon ls =
      ((ls.map strip).filter
        (fun l => !decide (l = [] ∨ l.head? = some '#'))).map parseLexLine ∧
    (∀ line c p, splitOnce ['='] line = none → splitOnce [':'] line = some (c, p) →
      parseLexLine line = ⟨strip c, strip p, [], []⟩) ∧
    parseLexLine (chars "vala : noun") = ⟨chars "vala", chars "noun", [], []⟩ := by
  refine ⟨?_, ?_, by decide⟩
  · induction ls with
    | nil => rfl
    | cons raw rest ih =>
      have hstep : collectLexicon (raw :: rest) =
          if strip raw = [] ∨ (strip raw).head? = some '#' then collectLexicon rest
          else parseLexLine (strip raw) :: collectLexicon rest := rfl
      rw [hstep, List.map_cons, List.filter_cons]
      by_cases h : strip raw = [] ∨ (strip raw).head? = some '#'
      · have hb : (!decide (strip raw = [] ∨ (strip raw).head? = some '#')) = false := by
          simp [h]
        rw [if_pos h, ih, hb]
        simp
      · have hb : (!decide (strip raw = [] ∨ (strip raw).head? = some '#')) = true := by
          simp [h]
        rw [if_neg h, ih, hb]
        simp
  · intro line c p h h2
    simp [parseLexLine, h, h2]

/-- Claim C10: for a lexicon line containing `=` whose right side contains
both `(` and `)` with the last `)` at or before the first `(`, the parser
keeps the entire right side as the conlang form and leaves the ipa empty. -/
theorem C10_paren_order (line l r : List Char) (i j : Nat)
    (h : splitOnce ['='] line = some (l, r))
    (hi : firstIdx '(' (strip r) = some i)
    (hj : lastIdx ')' (strip r) = some j)
    (hle : j ≤ i) :
    (parseLexLine line).conlang = strip r ∧ (parseLexLine line).ipa = [] := by
  have hij : ¬ i < j := by omega
  simp [parseLexLine, h, hi, hj, hij]

/-- Looking up a key right after assigning it returns the assigned value. -/
theorem dictGet_setKey_self (d : List (List Char × JValue)) (k : List Char) (v : JValue) :
    dictGet (setKey d k v) k = some v := by
  induction d with
  | nil => simp [setKey, dictGet]
  | cons kv rest ih =>
    obtain ⟨k', v'⟩ := kv
    by_cases h : k' = k
    · simp [setKey, dictGet, h]
    · simp [setKey, dictGet, h, ih]

/-- Assigning one key leaves lookups of any other key unchanged. -/
theorem dictGet_setKey_ne (d : List (List Char × JValue)) (k k0 : List Char) (v : JValue)
    (h : k ≠ k0) : dictGet (setKey d k v) k0 = dictGet d k0 := by
  induction d with
  | nil => simp [setKey, dictGet, h]
  | cons kv rest ih =>
    obtain ⟨k', v'⟩ := kv
    by_cases h2 : k' = k
    · subst h2
      simp [setKey, dictGet, h]
    · simp [setKey, dictGet, h2, ih]

/-- `dict.update` with an update that does not mention a key leaves that key's
lookup unchanged. -/
theorem dictGet_updateDict_not_mem :
    ∀ (upd base : List (List Char × JValue)) (k : List Char),
      k ∉ upd.map Prod.fst → dictGet (updateDict base upd) k = dictGet base k := by
  intro upd
  induction upd with
  | nil => intro base k _; rfl
  | cons kv rest ih =>
    intro base k hk
    obtain ⟨k0, v0⟩ := kv
    simp only [List.map_cons, List.mem_cons, not_or] at hk
    rw [show updateDict base ((k0, v0) :: rest) = updateDict (setKey base k0 v0) rest from rfl,
      ih (setKey base k0 v0) k hk.2]
    exact dictGet_setKey_ne base k0 k v0 (fun he => hk.1 he.symm)

/-- With duplicate-free keys in the update, every entry of the update is
found intact after `dict.update`. -/
theorem dictGet_updateDict_of_get :
    ∀ (upd base : List (List Char × JValue)) (k : List Char) (v : JValue),
      (upd.map Prod.fst).Nodup → dictGet upd k = some v →
      dictGet (updateDict base upd) k = some v := by
  intro upd
  induction upd with
  | nil => intro base k v _ hg; simp [dictGet] at hg
  | cons kv rest ih =>
    intro base k v hnd hg
    obtain ⟨k0, v0⟩ := kv
    rw [show updateDict base ((k0, v0) :: rest) = updateDict (setKey base k0 v0) rest from rfl]
    simp only [List.map_cons, List.nodup_cons] at hnd
    by_cases h : k0 = k
    · subst h
      have hv : v0 = v := by simpa [dictGet] using hg
      rw [dictGet_updateDict_not_mem rest (setKey base k0 v0) k0 hnd.1,
        dictGet_setKey_self, hv]
    · have hg2 : dictGet rest k = some v := by simpa [dictGet, h] using hg
      exact ih (setKey base k0 v0) k v hnd.2 hg2

/-- Claim C6: for a settings dictionary whose four documented keys hold a
string, an array, a boolean and a string, saving and then loading into a
fresh default `Config` reproduces the values of all four keys (the JSON
serialisation round-trips these value shapes identically). -/
theorem C6_config_roundtrip (cfg : List (List Char × JValue))
    (hnd : (cfg.map Prod.fst).Nodup)
    (t : List Char) (ht : dictGet cfg (chars "theme") = some (JValue.str t))
    (rf : List JValue) (hrf : dictGet cfg (chars "recent_files") = some (JValue.arr rf))
    (hrfs : ∀ v ∈ rf, ∃ s, v = JValue.str s)
    (b : Bool) (hb : dictGet cfg (chars "auto_save") = some (JValue.bool b))
    (lg : List Char) (hl : dictGet cfg (chars "language") = some (JValue.str lg)) :
    dictGet (Config.load (Config.save cfg) defaultSettings) (chars "theme") =
      some (JValue.str t) ∧
    dictGet (Config.load (Config.save cfg) defaultSettings) (chars "recent_files") =
      some (JValue.arr rf) ∧
    dictGet (Config.load (Config.save cfg) defaultSettings) (chars "auto_save") =
      some (JValue.bool b) ∧
    dictGet (Config.load (Config.save cfg) defaultSettings) (chars "language") =
      some (JValue.str lg) := by
  rw [show Config.load (Config.save cfg) defaultSettings = updateDict defaultSettings cfg
    from rfl]
  exact ⟨dictGet_updateDict_of_get cfg defaultSettings _ _ hnd ht,
         dictGet_updateDict_of_get cfg defaultSettings _ _ hnd hrf,
         dictGet_updateDict_of_get cfg defaultSettings _ _ hnd hb,
         dictGet_updateDict_of_get cfg defaultSettings _ _ hnd hl⟩

/-- Claim C6, witness: the round-trip at the default settings dictionary. -/
theorem C6_config_roundtrip_witness :
    dictGet (Config.load (Config.save defaultSettings) defaultSettings) (chars "theme") =
      some (JValue.str (chars "default")) ∧
    dictGet (Config.load (Config.save defaultSettings) defaultSettings) (chars "recent_files") =
      some (JValue.arr []) ∧
    dictGet (Config.load (Config.save defaultSettings) defaultSettings) (chars "auto_save") =
      some (JValue.bool true) ∧
    dictGet (Config.load (Config.save defaultSettings) defaultSettings) (chars "language") =
      some (JValue.str (chars "en")) :=
  C6_config_roundtrip defaultSettings (by decide) (chars "default") rfl [] rfl
    (fun v hv => absurd hv (List.not_mem_nil v)) true rfl (chars "en") rfl

/-- Claim C3, witness at the line `"a=b"` together with the spec's example. -/
theorem C3_lexicon_eq_line_witness :
    (∀ a b, splitOnce [':'] (strip (chars "a")) = some (a, b) →
      (parseLexLine (chars "a=b")).english = strip a ∧
      (parseLexLine (chars "a=b")).part_of_speech = strip b) ∧
    (splitOnce [':'] (strip (chars "a")) = none →
      (parseLexLine (chars "a=b")).english = strip (chars "a") ∧
      (parseLexLine (chars "a=b")).part_of_speech = []) ∧
    (∀ i j, firstIdx '(' (strip (chars "b")) = some i →
      lastIdx ')' (strip (chars "b")) = some j → i < j →
      (parseLexLine (chars "a=b")).conlang = strip ((strip (chars "b")).take i) ∧
      (parseLexLine (chars "a=b")).ipa =
        strip (((strip (chars "b")).drop (i + 1)).take (j - i - 1))) ∧
    (firstIdx '(' (strip (chars "b")) = none → lastIdx ')' (strip (chars "b")) = none →
      (parseLexLine (chars "a=b")).conlang = strip (chars "b") ∧
      (parseLexLine (chars "a=b")).ipa = []) ∧
    parseLexLine (chars "sunlight : noun = vala (ˈva.la)") =
      ⟨chars "vala", chars "noun", chars "sunlight", chars "ˈva.la"⟩ :=
  C3_lexicon_eq_line (chars "a=b") (chars "a") (chars "b") (by decide)

/-- Claim C10, witness at the line `"a = b)x("` (first `(` at index 3, last
`)` at index 1 of the right side). -/
theorem C10_paren_order_witness :
    (parseLexLine (chars "a = b)x(")).conlang = strip (chars " b)x(") ∧
    (parseLexLine (chars "a = b)x(")).ipa = [] :=
  C10_paren_order (chars "a = b)x(") (chars "a ") (chars " b)x(") 3 1
    (by decide) (by decide) (by decide) (by decide)

/-- `insertUnique` only ever appends to the accumulator. -/
theorem insertUnique_append (acc : List (List Char)) (x : List Char) :
    ∃ t, insertUnique acc x = acc ++ t := by
  unfold insertUnique
  by_cases h : x ∈ acc
  · exact ⟨[], by simp [h]⟩
  · exact ⟨[x], by simp [h]⟩

/-- `dedupAcc` only ever appends to the accumulator. -/
theorem dedupAcc_append :
    ∀ (xs acc : List (List Char)), ∃ t, dedupAcc acc xs = acc ++ t := by
  intro xs
  induction xs with
  | nil => exact fun acc => ⟨[], by simp [dedupAcc]⟩
  | cons x xs ih =>
    intro acc
    obtain ⟨t1, h1⟩ := insertUnique_append acc x
    obtain ⟨t2, h2⟩ := ih (insertUnique acc x)
    refine ⟨t1 ++ t2, ?_⟩
    rw [show dedupAcc acc (x :: xs) = dedupAcc (insertUnique acc x) xs from rfl, h2, h1,
      List.append_assoc]

/-- Adding one element grows the accumulator by at most one. -/
theorem insertUnique_length_le (acc : List (List Char)) (x : List Char) :
    (insertUnique acc x).length ≤ acc.length + 1 := by
  unfold insertUnique
  by_cases h : x ∈ acc <;> simp [h]

theorem mem_insertUnique (acc : List (List Char)) (x y : List Char) :
    y ∈ insertUnique acc x ↔ y ∈ acc ∨ y = x := by
  unfold insertUnique
  by_cases h : x ∈ acc
  · simp only [if_pos h]
    constructor
    · exact Or.inl
    · rintro (hy | rfl)
      · exact hy
      · exact h
  · simp only [if_neg h, List.mem_append, List.mem_singleton]

theorem mem_dedupAcc :
    ∀ (xs acc : List (List Char)) (y : List Char),
      y ∈ dedupAcc acc xs ↔ y ∈ acc ∨ y ∈ xs := by
  intro xs
  induction xs with
  | nil => intro acc y; simp [dedupAcc]
  | cons x xs ih =>
    intro acc y
    rw [show dedupAcc acc (x :: xs) = dedupAcc (insertUnique acc x) xs from rfl, ih,
      mem_insertUnique]
    simp only [List.mem_cons]
    tauto

theorem nodup_insertUnique (acc : List (List Char)) (x : List Char) (h : acc.Nodup) :
    (insertUnique acc x).Nodup := by
  unfold insertUnique
  by_cases hx : x ∈ acc
  · simpa [hx] using h
  · simp [hx, List.nodup_append, h]

theorem nodup_dedupAcc :
    ∀ (xs acc : List (List Char)), acc.Nodup → (dedupAcc acc xs).Nodup := by
  intro xs
  induction xs with
  | nil => exact fun _ h => h
  | cons x xs ih => exact fun acc h => ih (insertUnique acc x) (nodup_insertUnique acc x h)

/-- Starting empty, `dedupAcc` produces a list of exactly the distinct
elements of its input. -/
theorem length_dedupAcc_nil (xs : List (List Char)) :
    (dedupAcc [] xs).length = xs.toFinset.card := by
  have hnd : (dedupAcc [] xs).Nodup := nodup_dedupAcc xs [] List.nodup_nil
  have hset : (dedupAcc [] xs).toFinset = xs.toFinset := by
    ext a
    simp [List.mem_toFinset, mem_dedupAcc]
  rw [← List.toFinset_card_of_nodup hnd, hset]

theorem pairConcats_cons_eq (p : List Char × List Char) (ps : List (List Char × List Char))
    (h : p.1 = p.2) : pairConcats (p :: ps) = pairConcats ps := by
  simp [pairConcats, List.filter_cons, h]

theorem pairConcats_cons_ne (p : List Char × List Char) (ps : List (List Char × List Char))
    (h : ¬ p.1 = p.2) : pairConcats (p :: ps) = (p.1 ++ p.2) :: pairConcats ps := by
  simp [pairConcats, List.filter_cons, h]

/-- The capped loop equals first-occurrence deduplication truncated at the
cap: it halts exactly when the set reaches 200 elements. -/
theorem clusterLoop_eq_dedup :
    ∀ (ps : List (List Char × List Char)) (acc : List (List Char)), acc.length < 200 →
      clusterLoop acc ps = (dedupAcc acc (pairConcats ps)).take 200 := by
  intro ps
  induction ps with
  | nil =>
    intro acc h
    rw [show clusterLoop acc [] = acc from rfl, show pairConcats [] = [] from rfl,
      show dedupAcc acc [] = acc from rfl, List.take_of_length_le (Nat.le_of_lt h)]
  | cons p ps ih =>
    intro acc h
    have hstep : clusterLoop acc (p :: ps) =
        if p.1 = p.2 then clusterLoop acc ps
        else
          if 200 ≤ (insertUnique acc (p.1 ++ p.2)).length then insertUnique acc (p.1 ++ p.2)
          else clusterLoop (insertUnique acc (p.1 ++ p.2)) ps := rfl
    by_cases hp : p.1 = p.2
    · rw [hstep, if_pos hp, pairConcats_cons_eq p ps hp]
      exact ih acc h
    · rw [hstep, if_neg hp, pairConcats_cons_ne p ps hp,
        show dedupAcc acc ((p.1 ++ p.2) :: pairConcats ps)
          = dedupAcc (insertUnique acc (p.1 ++ p.2)) (pairConcats ps) from rfl]
      by_cases hlen : 200 ≤ (insertUnique acc (p.1 ++ p.2)).length
      · rw [if_pos hlen]
        have h200 : (insertUnique acc (p.1 ++ p.2)).length = 200 := by
          have := insertUnique_length_le acc (p.1 ++ p.2)
          omega
        obtain ⟨t, ht⟩ := dedupAcc_append (pairConcats ps) (insertUnique acc (p.1 ++ p.2))
        rw [ht, ← h200]
        exact (List.take_left _ _).symm
      · rw [if_neg hlen]
        exact ih (insertUnique acc (p.1 ++ p.2)) (by omega)

/-- Claim C1 (amended): for a duplicate-free consonant list of at most 15
symbols, the cluster generator returns exactly `min 200 D` unique strings,
where `D` is the number of distinct concatenations `first ++ second` over
ordered pairs of distinct symbols (`D = n*(n-1)` whenever those
concatenations do not collide, but distinct symbol pairs can concatenate to
the same string); the result never exceeds 200 strings, is duplicate-free,
is sorted in ascending lexicographic order, and every element is the
concatenation of two distinct input symbols (hence has their summed
length). -/
theorem C1_cluster_generator (cs : List (List Char)) (hnd : cs.Nodup)
    (hlen : cs.length ≤ 15) :
    (generate_clusters cs).length =
      min 200 (pairConcats (consonantPairs cs)).toFinset.card ∧
    (generate_clusters cs).length ≤ 200 ∧
    (generate_clusters cs).Nodup ∧
    List.Sorted (· ≤ ·) (generate_clusters cs) ∧
    (∀ x ∈ generate_clusters cs, ∃ f, f ∈ cs ∧ ∃ s, s ∈ cs ∧ f ≠ s ∧ x = f ++ s) := by
  have hperm : (generate_clusters cs).Perm (clusterLoop [] (consonantPairs cs)) :=
    List.perm_insertionSort (· ≤ ·) (clusterLoop [] (consonantPairs cs))
  have hloop : clusterLoop [] (consonantPairs cs) =
      (dedupAcc [] (pairConcats (consonantPairs cs))).take 200 :=
    clusterLoop_eq_dedup (consonantPairs cs) [] (by norm_num)
  have hlen_eq : (generate_clusters cs).length =
      min 200 (pairConcats (consonantPairs cs)).toFinset.card := by
    rw [hperm.length_eq, hloop, List.length_take, length_dedupAcc_nil]
  refine ⟨hlen_eq, ?_, ?_, ?_, ?_⟩
  · rw [hlen_eq]
    exact min_le_left _ _
  · have hdn : (dedupAcc [] (pairConcats (consonantPairs cs))).Nodup :=
      nodup_dedupAcc _ [] List.nodup_nil
    have htake : ((dedupAcc [] (pairConcats (consonantPairs cs))).take 200).Nodup :=
      (List.take_sublist _ _).nodup hdn
    exact hperm.nodup_iff.mpr (hloop ▸ htake)
  · exact List.sorted_insertionSort (· ≤ ·) _
  · intro x hx
    have hx2 : x ∈ clusterLoop [] (consonantPairs cs) := hperm.mem_iff.mp hx
    rw [hloop] at hx2
    have hx3 : x ∈ dedupAcc [] (pairConcats (consonantPairs cs)) :=
      (List.take_sublist _ _).subset hx2
    have hx4 : x ∈ pairConcats (consonantPairs cs) := by
      rcases (mem_dedupAcc _ _ _).mp hx3 with h | h
      · cases h
      · exact h
    simp only [pairConcats, consonantPairs, List.mem_map, List.mem_filter,
      List.mem_flatMap, decide_eq_true_eq] at hx4
    obtain ⟨⟨f, s⟩, ⟨⟨a, ha, s2, hs2, heq⟩, hne⟩, hxe⟩ := hx4
    cases heq
    exact ⟨_, ha, _, hs2, hne, hxe.symm⟩

/-- Claim C1, counterexample to the original statement: the two distinct
symbols "a" and "aa" produce only one cluster ("a"+"aa" and "aa"+"a" both
concatenate to "aaa"), not `min(200, n*(n-1)) = 2`. -/
theorem C1_cluster_generator_cex :
    ([chars "a", chars "aa"]).Nodup ∧
    ([chars "a", chars "aa"]).length ≤ 15 ∧
    (generate_clusters [chars "a", chars "aa"]).length ≠
      min 200 (([chars "a", chars "aa"]).length * (([chars "a", chars "aa"]).length - 1)) := by
  decide

/-- Claim C1, witness: the amended statement at the consonant list
`["p", "t", "k"]`. -/
theorem C1_cluster_generator_witness :
    (generate_clusters [chars "p", chars "t", chars "k"]).length =
      min 200 (pairConcats (consonantPairs [chars "p", chars "t", chars "k"])).toFinset.card ∧
    (generate_clusters [chars "p", chars "t", chars "k"]).length ≤ 200 ∧
    (generate_clusters [chars "p", chars "t", chars "k"]).Nodup ∧
    List.Sorted (· ≤ ·) (generate_clusters [chars "p", chars "t", chars "k"]) ∧
    (∀ x ∈ generate_clusters [chars "p", chars "t", chars "k"],
      ∃ f, f ∈ [chars "p", chars "t", chars "k"] ∧
        ∃ s, s ∈ [chars "p", chars "t", chars "k"] ∧ f ≠ s ∧ x = f ++ s) :=
  C1_cluster_generator [chars "p", chars "t", chars "k"] (by decide) (by decide)
